/-
Verification of the csharp Zed extension's acquisition/versioning engine.

Shallow embedding of:
  - src/language_servers/nuget.rs   (NuGetVersion parsing and ordering, selectMax)
  - src/binary_manager.rs           (platform asset resolution, release fetch,
                                     binary acquisition state machine)
  - src/language_servers/roslyn.rs  (RID resolution, structural server location)

Strings from the Rust side are modelled as Lean `String`/`List Char`; u64
arithmetic is `Nat` with an explicit `2 ^ 64` bound where Rust parsing can
overflow; fallible operations return `Option`/`Except`; external effects
(network, filesystem) are passed in as explicit data.
-/
import Mathlib

/-! ### Comparator laws

`LinCmp f` captures the laws of a linear comparator: symmetry under `swap`
and transitivity of "not greater".  All the concrete comparators of the
version order are shown to satisfy it, and lexicographic composition
(`Ordering.then`) preserves it. -/

/-- A comparator that behaves like the comparator of a linear preorder. -/
structure LinCmp {α : Type _} (f : α → α → Ordering) : Prop where
  symm : ∀ a b, (f a b).swap = f b a
  le_trans : ∀ a b c, f a b ≠ .gt → f b c ≠ .gt → f a c ≠ .gt

/-! ### Primitive comparators -/

/-- Numeric comparison, the order used for Rust `u64::cmp`. -/
def natCmp (a b : Nat) : Ordering :=
  if a < b then .lt else if a = b then .eq else .gt

/-- Lexicographic list comparator: Rust slice/iterator `cmp` given an element
comparator (first difference decides, otherwise the shorter list is less). -/
def lexCmp {α : Type _} (f : α → α → Ordering) : List α → List α → Ordering
  | [], [] => .eq
  | [], _ :: _ => .lt
  | _ :: _, [] => .gt
  | a :: as, b :: bs => (f a b).then (lexCmp f as bs)

/-! ### NuGet version parsing (src/language_servers/nuget.rs) -/

/-- Rust `char::to_ascii_lowercase`: lower-cases only ASCII `A`–`Z`. -/
def toAsciiLower (c : Char) : Char :=
  if 'A' ≤ c ∧ c ≤ 'Z' then Char.ofNat (c.toNat + 32) else c

/-- Rust `str::starts_with(prefix)`: byte-prefix test, equivalently a
character-prefix test. -/
def str_starts_with (s p : String) : Bool :=
  p.data.isPrefixOf s.data

/-- Rust `str::ends_with(suffix)`: byte-suffix test, equivalently a
character-suffix test. -/
def str_ends_with (s p : String) : Bool :=
  p.data.isSuffixOf s.data

/-- Comparator on characters by code point, matching Rust byte-wise `str`
comparison (UTF-8 byte order coincides with code-point order). -/
def charCmp (a b : Char) : Ordering :=
  natCmp a.toNat b.toNat

/-- Rust `str::parse::<u64>`: optional leading `+`, then one or more ASCII
digits, failing on overflow past `2 ^ 64 - 1`. -/
def parseU64 (s : List Char) : Option Nat :=
  let digits := match s with
    | '+' :: rest => rest
    | _ => s
  if digits.isEmpty then none
  else if digits.all Char.isDigit then
    let n := digits.foldl (fun acc c => acc * 10 + (c.toNat - 48)) 0
    if n < 2 ^ 64 then some n else none
  else none

/-- Rust `str::split_once(ch)`: split at the first occurrence, `none` when the
character does not occur. -/
def splitOnceChar (sep : Char) : List Char → Option (List Char × List Char)
  | [] => none
  | c :: rest =>
    if c = sep then some ([], rest)
    else (splitOnceChar sep rest).map fun p => (c :: p.1, p.2)

/-- Rust `str::split(ch)`: every occurrence separates, empty pieces kept,
always at least one piece. -/
def splitOnChar (sep : Char) : List Char → List (List Char)
  | [] => [[]]
  | c :: rest =>
    if c = sep then [] :: splitOnChar sep rest
    else
      match splitOnChar sep rest with
      | [] => [[c]]
      | piece :: pieces => (c :: piece) :: pieces

/-- `collect::<Option<Vec<u64>>>()` over `split('.').map(parse)`. -/
def parseSegments : List (List Char) → Option (List Nat)
  | [] => some []
  | s :: rest =>
    match parseU64 s, parseSegments rest with
    | some n, some ns => some (n :: ns)
    | _, _ => none

/-- `NuGetVersion` from nuget.rs; u64 fields as `Nat` (parse enforces the
`2 ^ 64` bound), strings as `List Char`. -/
structure NuGetVersion where
  major : Nat
  minor : Nat
  patch : Nat
  revision : Nat
  prerelease : Option (List Char)
  raw : List Char
  deriving DecidableEq, Repr

/-- `NuGetVersion::parse`. -/
def NuGetVersion.parse (input : List Char) : Option NuGetVersion :=
  let cp : List Char × Option (List Char) :=
    match splitOnceChar '-' input with
    | some (c, p) => (c, some p)
    | none => (input, none)
  match parseSegments (splitOnChar '.' cp.1) with
  | none => none
  | some [major] => some ⟨major, 0, 0, 0, cp.2, input⟩
  | some [major, minor] => some ⟨major, minor, 0, 0, cp.2, input⟩
  | some [major, minor, patch] => some ⟨major, minor, patch, 0, cp.2, input⟩
  | some [major, minor, patch, revision] =>
    some ⟨major, minor, patch, revision, cp.2, input⟩
  | some _ => none

/-- `cmp_prerelease_token` from nuget.rs. -/
def cmp_prerelease_token (a b : List Char) : Ordering :=
  match parseU64 a, parseU64 b with
  | some na, some nb => natCmp na nb
  | some _, none => .lt
  | none, some _ => .gt
  | none, none => lexCmp charCmp (a.map toAsciiLower) (b.map toAsciiLower)

/-- Prerelease comparison from `Ord for NuGetVersion`: absence of a tag sorts
above presence; two tags compare token-wise on the `.`-separated pieces. -/
def cmpPrerelease : Option (List Char) → Option (List Char) → Ordering
  | none, none => .eq
  | none, some _ => .gt
  | some _, none => .lt
  | some a, some b => lexCmp cmp_prerelease_token (splitOnChar '.' a) (splitOnChar '.' b)

/-- `Ord for NuGetVersion` (nuget.rs lines 156–186). -/
def NuGetVersion.cmp (a b : NuGetVersion) : Ordering :=
  ((((natCmp a.major b.major).then (natCmp a.minor b.minor)).then
        (natCmp a.patch b.patch)).then
      (natCmp a.revision b.revision)).then
    (cmpPrerelease a.prerelease b.prerelease)

/-! ### Latest-version selection (`NuGetClient::get_latest_version`, lines 72–78) -/

/-- Rust `Iterator::max` (via `max_by`/`cmp::max_by`): fold keeping the newer
element whenever it is not strictly less, so ties keep the last element. -/
def iterMax (v : NuGetVersion) (vs : List NuGetVersion) : NuGetVersion :=
  vs.foldl (fun acc x => if NuGetVersion.cmp x acc = .lt then acc else x) v

/-- The pure core of `NuGetClient::get_latest_version`: parse every listed
version string, drop unparsable ones, take the maximum, return its raw text;
error when nothing parses. -/
def get_latest_version_core (package_id : String) (versions : List (List Char)) :
    Except String (List Char) :=
  match versions.filterMap NuGetVersion.parse with
  | [] => .error ("no parseable versions found for NuGet package '" ++ package_id ++ "'")
  | v :: vs => .ok (iterMax v vs).raw

/-! ### Platform resolution (src/binary_manager.rs, src/language_servers/roslyn.rs) -/

/-- `zed::Os`. -/
inductive Os where
  | mac
  | linux
  | windows
  deriving DecidableEq, Repr

/-- `zed::Architecture`. -/
inductive Arch where
  | aarch64
  | x86
  | x8664
  deriving DecidableEq, Repr

/-- `BinaryManager::get_platform_asset_name` (binary_manager.rs lines 51–73). -/
def get_platform_asset_name (platform : Os) (arch : Arch) : Except String String :=
  match platform, arch with
  | .linux, .x8664 => .ok ("netcoredbg-" ++ "linux-amd64" ++ ".tar.gz")
  | .linux, .aarch64 => .ok ("netcoredbg-" ++ "linux-arm64" ++ ".tar.gz")
  | .mac, .x8664 => .ok ("netcoredbg-" ++ "osx-amd64" ++ ".tar.gz")
  | .mac, .aarch64 => .ok ("netcoredbg-" ++ "osx-arm64" ++ ".tar.gz")
  | .windows, .x8664 => .ok ("netcoredbg-" ++ "win64" ++ ".zip")
  | .windows, .aarch64 => .ok ("netcoredbg-" ++ "win64" ++ ".zip")
  | _, .x86 =>
    .error "Unsupported architecture: x86 (32-bit). NetCoreDbg only supports 64-bit architectures (amd64/arm64)."

/-- The RID table of `Roslyn::language_server_cmd` (roslyn.rs lines 56–64):
total, with the catch-all arm returning `"any"`. -/
def roslyn_rid (platform : Os) (arch : Arch) : String :=
  match platform, arch with
  | .windows, .x8664 => "win-x64"
  | .windows, .aarch64 => "win-arm64"
  | .linux, .x8664 => "linux-x64"
  | .linux, .aarch64 => "linux-arm64"
  | .mac, .x8664 => "osx-x64"
  | .mac, .aarch64 => "osx-arm64"
  | _, _ => "any"

/-! ### Release fetch and asset matching (`BinaryManager::fetch_latest_release`) -/

/-- A release asset as exposed by `zed::latest_github_release`. -/
structure GithubAsset where
  name : String
  download_url : String
  deriving DecidableEq, Repr

/-- The fields of `zed::GithubRelease` the manager reads. -/
structure GithubRelease where
  version : String
  assets : List GithubAsset
  deriving DecidableEq, Repr

/-- `AdapterVersion` from binary_manager.rs. -/
structure AdapterVersion where
  tag_name : String
  download_url : String
  deriving DecidableEq, Repr

/-- Rust `Vec::join(", ")` over the asset names. -/
def joinComma : List String → String
  | [] => ""
  | [s] => s
  | s :: rest => s ++ ", " ++ joinComma rest

/-- `BinaryManager::fetch_latest_release` (binary_manager.rs lines 76–109),
with the outcome of `zed::latest_github_release` supplied as data. -/
def fetch_latest_release (releaseResult : Except String GithubRelease)
    (platform : Os) (arch : Arch) : Except String AdapterVersion :=
  match releaseResult with
  | .error e => .error ("Failed to fetch latest release: " ++ e)
  | .ok release =>
    match get_platform_asset_name platform arch with
    | .error e => .error e
    | .ok asset_name =>
      match release.assets.find? fun asset => asset.name = asset_name with
      | some asset => .ok ⟨release.version, asset.download_url⟩
      | none =>
        .error ("No compatible asset found for platform. Looking for: '" ++ asset_name ++
          "'. Available assets: [" ++ joinComma (release.assets.map GithubAsset.name) ++ "]")

/-! ### Roslyn structural server location (roslyn.rs lines 119–147) -/

/-- `ServerPath` from roslyn.rs. -/
inductive ServerPath where
  | exe (path : String)
  | dll (path : String)
  deriving DecidableEq, Repr

/-- A directory entry as yielded by `fs::read_dir`, restricted to the fields
the locator consults (entries whose metadata reads fail are skipped by the
source's `filter_map` and are simply omitted from the list). -/
structure DirEntry where
  name : String
  is_dir : Bool
  deriving DecidableEq, Repr

/-- `Roslyn::server_path_for_rid` (roslyn.rs lines 139–147). -/
def server_path_for_rid (rid : String) (server_dir : String) : ServerPath :=
  if rid = "any" then
    .dll (server_dir ++ "/" ++ "Microsoft.CodeAnalysis.LanguageServer" ++ ".dll")
  else if str_starts_with rid "win-" then
    .exe (server_dir ++ "/" ++ "Microsoft.CodeAnalysis.LanguageServer" ++ ".exe")
  else
    .exe (server_dir ++ "/" ++ "Microsoft.CodeAnalysis.LanguageServer")

/-- `Roslyn::find_server_path` (roslyn.rs lines 119–137): reads the `tools`
directory, keeps the subdirectory entries, and takes the **first** one as the
TFM folder; errors only when the read fails or no subdirectory exists. -/
def find_server_path (rid : String) (version_dir : String)
    (readDirResult : Except String (List DirEntry)) : Except String ServerPath :=
  let tools_dir := version_dir ++ "/tools"
  match readDirResult with
  | .error e => .error ("failed to read tools directory '" ++ tools_dir ++ "': " ++ e)
  | .ok entries =>
    match (entries.filter fun entry => entry.is_dir).head? with
    | none => .error ("no TFM directory found inside '" ++ tools_dir ++ "'")
    | some entry =>
      .ok (server_path_for_rid rid (tools_dir ++ "/" ++ entry.name ++ "/" ++ rid))

/-! ### Binary acquisition state machine (src/binary_manager.rs)

The filesystem is a map from path strings to a file kind; external effects
(the GitHub query, `zed::download_file`, `fs::create_dir_all`, the
copy/locate step, `zed::make_file_executable`, `std::env::current_dir`) are
supplied as data: either an error message, or a filesystem transformer
describing what the successful effect did. -/

/-- What a path refers to on disk. -/
inductive FileKind where
  | absent
  | file
  | dir
  deriving DecidableEq, Repr

/-- A modelled filesystem. -/
structure FS where
  kind : String → FileKind

/-- Rust `Path::exists`. -/
def FS.pathExists (fs : FS) (p : String) : Bool :=
  match fs.kind p with
  | .absent => false
  | _ => true

/-- Rust `Path::is_file`. -/
def FS.isFile (fs : FS) (p : String) : Bool :=
  match fs.kind p with
  | .file => true
  | _ => false

/-- `zed::DownloadedFileType` as chosen in `download_and_extract_binary`. -/
inductive DownloadedFileType where
  | zip
  | gzipTar
  deriving DecidableEq, Repr

/-- Outcomes of the external operations one acquisition run can perform. -/
structure Env where
  os : Os
  arch : Arch
  releaseResult : Except String GithubRelease
  tempDirResult : Except String String
  downloadResult : Except String (FS → FS)
  createDirResult : Except String (FS → FS)
  copyResult : Except String (FS → FS)
  makeExecResult : Except String (FS → FS)
  currentDirResult : Except String String

/-- `BinaryManager::get_executable_name`. -/
def get_executable_name (os : Os) : String :=
  if os = .windows then "netcoredbg.exe" else "netcoredbg"

/-- `BinaryManager::validate_binary` (binary_manager.rs lines 270–282). -/
def validate_binary (fs : FS) (binary_path : String) : Except String Unit :=
  if !fs.pathExists binary_path then
    .error ("netcoredbg binary not found at: " ++ binary_path)
  else if !fs.isFile binary_path then
    .error ("netcoredbg path is not a file: " ++ binary_path)
  else
    .ok ()

/-- `let _ = OnceLock::set(value)`: first write wins, later writes are
silently dropped. -/
def onceLockSet (cell : Option String) (value : String) : Option String :=
  match cell with
  | none => some value
  | some c => some c

/-- `BinaryManager::download_and_extract_binary` (binary_manager.rs lines
117–163), returning the result together with the filesystem it leaves. -/
def download_and_extract_binary (env : Env) (fs : FS) : Except String String × FS :=
  match fetch_latest_release env.releaseResult env.os env.arch with
  | .error e => (.error e, fs)
  | .ok version =>
    match get_platform_asset_name env.os env.arch with
    | .error e => (.error e, fs)
    | .ok asset_name =>
      let file_type : Option DownloadedFileType :=
        if str_ends_with asset_name ".zip" then some .zip
        else if str_ends_with asset_name ".tar.gz" then some .gzipTar
        else none
      match file_type with
      | none => (.error ("Unsupported file type for asset: " ++ asset_name), fs)
      | some _ =>
        let version_dir := "netcoredbg_v" ++ version.tag_name
        match env.tempDirResult with
        | .error e => (.error e, fs)
        | .ok _temp_dir =>
          match env.downloadResult with
          | .error e => (.error ("Failed to download netcoredbg: " ++ e), fs)
          | .ok download =>
            let fs1 := download fs
            match env.createDirResult with
            | .error e => (.error ("Failed to create version directory: " ++ e), fs1)
            | .ok createDir =>
              let fs2 := createDir fs1
              match env.copyResult with
              | .error e => (.error e, fs2)
              | .ok copy =>
                let fs3 := copy fs2
                let binary_path := version_dir ++ "/" ++ get_executable_name env.os
                if fs3.pathExists binary_path then
                  match env.makeExecResult with
                  | .error e => (.error ("Failed to make file executable: " ++ e), fs3)
                  | .ok makeExec =>
                    let fs4 := makeExec fs3
                    match env.currentDirResult with
                    | .error e => (.error ("Failed to get current directory: " ++ e), fs4)
                    | .ok current_dir => (.ok (current_dir ++ "/" ++ binary_path), fs4)
                else
                  (.error ("netcoredbg executable not found at: " ++ binary_path), fs3)

/-- Result of one `get_binary_path` call: returned value, cache cell
afterwards, filesystem afterwards. -/
structure AcqResult where
  ret : Except String String
  cache : Option String
  fs : FS

/-- Priorities 3–4 of `BinaryManager::get_binary_path` (lines 243–267):
check the on-disk version directory for the freshly resolved release, and
otherwise download, cache, then validate. -/
def gbp_resolve (env : Env) (fs : FS) (cache : Option String) : AcqResult :=
  match fetch_latest_release env.releaseResult env.os env.arch with
  | .error e => ⟨.error e, cache, fs⟩
  | .ok version =>
    let version_dir := "netcoredbg_v" ++ version.tag_name
    let existing_binary_path := version_dir ++ "/" ++ get_executable_name env.os
    if fs.pathExists existing_binary_path then
      match env.currentDirResult with
      | .error e => ⟨.error ("Failed to get current directory: " ++ e), cache, fs⟩
      | .ok current_dir =>
        let path_str := current_dir ++ "/" ++ existing_binary_path
        ⟨.ok path_str, onceLockSet cache path_str, fs⟩
    else
      match download_and_extract_binary env fs with
      | (.error e, fs2) => ⟨.error e, cache, fs2⟩
      | (.ok binary_path, fs2) =>
        let cache2 := onceLockSet cache binary_path
        match validate_binary fs2 binary_path with
        | .error e => ⟨.error e, cache2, fs2⟩
        | .ok _ => ⟨.ok binary_path, cache2, fs2⟩

/-- `BinaryManager::get_binary_path` (binary_manager.rs lines 230–267). -/
def get_binary_path (env : Env) (fs : FS) (user_provided_path : Option String)
    (cache : Option String) : AcqResult :=
  match user_provided_path with
  | some user_path => ⟨.ok user_path, cache, fs⟩
  | none =>
    match cache with
    | some cached_path =>
      if fs.pathExists cached_path then ⟨.ok cached_path, cache, fs⟩
      else gbp_resolve env fs cache
    | none => gbp_resolve env fs cache

deriving instance DecidableEq for Except

/-! ### Concrete scenarios used to exercise the acquisition pipeline -/

/-- An initially empty filesystem. -/
def emptyFS : FS :=
  ⟨fun _ => .absent⟩

/-- Filesystem left by a copy step that produced the relative binary path as a
regular file while the same path seen from the working directory is a
directory, so the post-download existence check passes but validation's
`is_file` check fails. -/
def badCopyFS : FS :=
  ⟨fun p =>
    if p = "netcoredbg_v1.0/netcoredbg" then .file
    else if p = "/cwd/netcoredbg_v1.0/netcoredbg" then .dir
    else .absent⟩

/-- Environment for a run in which every external step succeeds, the copy
step leaves `badCopyFS`, and validation therefore fails afterwards. -/
def badValidateEnv : Env where
  os := .linux
  arch := .x8664
  releaseResult := .ok ⟨"1.0", [⟨"netcoredbg-linux-amd64.tar.gz", "https://dl/a.tar.gz"⟩]⟩
  tempDirResult := .ok "/cwd/netcoredbg_v1.0_77"
  downloadResult := .ok id
  createDirResult := .ok id
  copyResult := .ok fun _ => badCopyFS
  makeExecResult := .ok id
  currentDirResult := .ok "/cwd"

/-- A filesystem holding a valid on-disk install of version 1.0 for Linux
while nothing exists at the stale path `/old/netcoredbg`. -/
def diskInstallFS : FS :=
  ⟨fun p =>
    if p = "netcoredbg_v1.0/netcoredbg" then .file
    else if p = "/cwd/netcoredbg_v1.0/netcoredbg" then .file
    else .absent⟩

/-! ### Concrete parsed versions used by the ordering scenarios -/

/-- Parse of `"2.0.0"`. -/
def v200 : NuGetVersion := ⟨2, 0, 0, 0, none, "2.0.0".data⟩

/-- Parse of `"2.0.0-alpha.2"`. -/
def v200a2 : NuGetVersion := ⟨2, 0, 0, 0, some "alpha.2".data, "2.0.0-alpha.2".data⟩

/-- Parse of `"2.0.0-alpha.1"`. -/
def v200a1 : NuGetVersion := ⟨2, 0, 0, 0, some "alpha.1".data, "2.0.0-alpha.1".data⟩

/-- Parse of `"2.0.0-alpha"`. -/
def v200a : NuGetVersion := ⟨2, 0, 0, 0, some "alpha".data, "2.0.0-alpha".data⟩

/-- Parse of `"1.2"`. -/
def v12 : NuGetVersion := ⟨1, 2, 0, 0, none, "1.2".data⟩

/-- Parse of `"1.2.0.0"`. -/
def v1200 : NuGetVersion := ⟨1, 2, 0, 0, none, "1.2.0.0".data⟩

/-! ## Theorems

Comparator-law lemmas first, then the claim theorems. -/

namespace LinCmp

variable {α : Type _} {f : α → α → Ordering}

theorem gt_iff_lt (h : LinCmp f) (a b : α) : f a b = .gt ↔ f b a = .lt := by
  rw [← h.symm b a]; cases f b a <;> simp [Ordering.swap]

theorem eq_iff_eq (h : LinCmp f) (a b : α) : f a b = .eq ↔ f b a = .eq := by
  rw [← h.symm b a]; cases f b a <;> simp [Ordering.swap]

theorem refl (h : LinCmp f) (a : α) : f a a = .eq := by
  rcases hfa : f a a with _ | _ | _
  · have hs := h.symm a a
    rw [hfa] at hs
    exact absurd hs (by decide)
  · rfl
  · have hs := h.symm a a
    rw [hfa] at hs
    exact absurd hs (by decide)

theorem ne_gt_of_lt (_h : LinCmp f) {a b : α} (hab : f a b = .lt) : f a b ≠ .gt := by
  simp [hab]

theorem ne_gt_of_eq (_h : LinCmp f) {a b : α} (hab : f a b = .eq) : f a b ≠ .gt := by
  simp [hab]

theorem eq_trans (h : LinCmp f) {a b c : α} (hab : f a b = .eq) (hbc : f b c = .eq) :
    f a c = .eq := by
  have h1 : f a c ≠ .gt := h.le_trans a b c (h.ne_gt_of_eq hab) (h.ne_gt_of_eq hbc)
  have h2 : f c a ≠ .gt :=
    h.le_trans c b a (h.ne_gt_of_eq ((h.eq_iff_eq b c).1 hbc))
      (h.ne_gt_of_eq ((h.eq_iff_eq a b).1 hab))
  cases hac : f a c
  · exact absurd ((h.gt_iff_lt c a).2 hac) h2
  · rfl
  · exact absurd hac h1

theorem lt_of_lt_of_eq (h : LinCmp f) {a b c : α} (hab : f a b = .lt) (hbc : f b c = .eq) :
    f a c = .lt := by
  have h1 : f a c ≠ .gt := h.le_trans a b c (h.ne_gt_of_lt hab) (h.ne_gt_of_eq hbc)
  cases hac : f a c
  · rfl
  · exfalso
    have hca : f c a = .eq := (h.eq_iff_eq a c).1 hac
    have hba : f b a = .eq := h.eq_trans hbc hca
    exact absurd ((h.gt_iff_lt b a).2 hab) (by simp [hba])
  · exact absurd hac h1

theorem lt_of_eq_of_lt (h : LinCmp f) {a b c : α} (hab : f a b = .eq) (hbc : f b c = .lt) :
    f a c = .lt := by
  have h1 : f a c ≠ .gt := h.le_trans a b c (h.ne_gt_of_eq hab) (h.ne_gt_of_lt hbc)
  cases hac : f a c
  · rfl
  · exfalso
    have hca : f c a = .eq := (h.eq_iff_eq a c).1 hac
    have hcb : f c b = .eq := h.eq_trans hca hab
    exact absurd ((h.gt_iff_lt c b).2 hbc) (by simp [hcb])
  · exact absurd hac h1

theorem lt_trans (h : LinCmp f) {a b c : α} (hab : f a b = .lt) (hbc : f b c = .lt) :
    f a c = .lt := by
  have h1 : f a c ≠ .gt := h.le_trans a b c (h.ne_gt_of_lt hab) (h.ne_gt_of_lt hbc)
  cases hac : f a c
  · rfl
  · exfalso
    have hca : f c a = .eq := (h.eq_iff_eq a c).1 hac
    have : f c b ≠ .gt := h.le_trans c a b (h.ne_gt_of_eq hca) (h.ne_gt_of_lt hab)
    exact this ((h.gt_iff_lt c b).2 hbc)
  · exact absurd hac h1

/-- Lexicographic composition of two lawful comparators is lawful. -/
theorem thenComp (hf : LinCmp f) {g : α → α → Ordering} (hg : LinCmp g) :
    LinCmp (fun a b => (f a b).then (g a b)) := by
  constructor
  · intro a b
    simp only [Ordering.swap_then, hf.symm, hg.symm]
  · intro a b c h1 h2
    simp only [ne_eq, Ordering.then_eq_gt, not_or, not_and] at h1 h2 ⊢
    constructor
    · intro hgt
      rcases hab : f a b with _ | _ | _
      · rcases hbc : f b c with _ | _ | _
        · exact absurd (hf.lt_trans hab hbc) (by simp [hgt])
        · exact absurd (hf.lt_of_lt_of_eq hab hbc) (by simp [hgt])
        · exact h2.1 hbc
      · rcases hbc : f b c with _ | _ | _
        · exact absurd (hf.lt_of_eq_of_lt hab hbc) (by simp [hgt])
        · exact absurd (hf.eq_trans hab hbc) (by simp [hgt])
        · exact h2.1 hbc
      · exact h1.1 hab
    · intro heq
      rcases hab : f a b with _ | _ | _
      · rcases hbc : f b c with _ | _ | _
        · exact absurd (hf.lt_trans hab hbc) (by simp [heq])
        · exact absurd (hf.lt_of_lt_of_eq hab hbc) (by simp [heq])
        · exact absurd hbc h2.1
      · rcases hbc : f b c with _ | _ | _
        · exact absurd (hf.lt_of_eq_of_lt hab hbc) (by simp [heq])
        · exact hg.le_trans a b c (h1.2 hab) (h2.2 hbc)
        · exact absurd hbc h2.1
      · exact absurd hab h1.1

/-- `comap` of a lawful comparator along a key function is lawful. -/
theorem comap {β : Type _} (h : LinCmp f) (k : β → α) :
    LinCmp (fun x y => f (k x) (k y)) :=
  ⟨fun a b => h.symm (k a) (k b), fun a b c => h.le_trans (k a) (k b) (k c)⟩

end LinCmp

theorem natCmp_eq_lt {a b : Nat} : natCmp a b = .lt ↔ a < b := by
  unfold natCmp; split_ifs <;> simp_all

theorem natCmp_eq_eq {a b : Nat} : natCmp a b = .eq ↔ a = b := by
  unfold natCmp; split_ifs <;> simp_all; omega

theorem natCmp_eq_gt {a b : Nat} : natCmp a b = .gt ↔ b < a := by
  unfold natCmp; split_ifs <;> simp_all <;> omega

theorem natCmp_lin : LinCmp natCmp := by
  constructor
  · intro a b
    rcases lt_trichotomy a b with h | h | h
    · rw [natCmp_eq_lt.2 h, natCmp_eq_gt.2 h]; decide
    · rw [natCmp_eq_eq.2 h, natCmp_eq_eq.2 h.symm]; decide
    · rw [natCmp_eq_gt.2 h, natCmp_eq_lt.2 h]; decide
  · intro a b c h1 h2
    rw [Ne, natCmp_eq_gt] at h1 h2 ⊢
    omega

theorem lexCmp_lin {α : Type _} {f : α → α → Ordering} (hf : LinCmp f) :
    LinCmp (lexCmp f) := by
  constructor
  · intro a
    induction a with
    | nil => intro b; cases b <;> rfl
    | cons x xs ih =>
      intro b
      cases b with
      | nil => rfl
      | cons y ys => simp [lexCmp, Ordering.swap_then, hf.symm, ih]
  · intro a
    induction a with
    | nil =>
      intro b c _ _
      cases c <;> simp [lexCmp]
    | cons x xs ih =>
      intro b c h1 h2
      cases b with
      | nil => simp [lexCmp] at h1
      | cons y ys =>
        cases c with
        | nil => simp [lexCmp] at h2
        | cons z zs =>
          simp only [lexCmp, ne_eq, Ordering.then_eq_gt, not_or, not_and] at h1 h2 ⊢
          constructor
          · intro hgt
            rcases hxy : f x y with _ | _ | _
            · rcases hyz : f y z with _ | _ | _
              · exact absurd (hf.lt_trans hxy hyz) (by simp [hgt])
              · exact absurd (hf.lt_of_lt_of_eq hxy hyz) (by simp [hgt])
              · exact h2.1 hyz
            · rcases hyz : f y z with _ | _ | _
              · exact absurd (hf.lt_of_eq_of_lt hxy hyz) (by simp [hgt])
              · exact absurd (hf.eq_trans hxy hyz) (by simp [hgt])
              · exact h2.1 hyz
            · exact h1.1 hxy
          · intro heq
            rcases hxy : f x y with _ | _ | _
            · rcases hyz : f y z with _ | _ | _
              · exact absurd (hf.lt_trans hxy hyz) (by simp [heq])
              · exact absurd (hf.lt_of_lt_of_eq hxy hyz) (by simp [heq])
              · exact absurd hyz h2.1
            · rcases hyz : f y z with _ | _ | _
              · exact absurd (hf.lt_of_eq_of_lt hxy hyz) (by simp [heq])
              · exact ih ys zs (h1.2 hxy) (h2.2 hyz)
              · exact absurd hyz h2.1
            · exact absurd hxy h1.1

theorem charCmp_lin : LinCmp charCmp :=
  natCmp_lin.comap Char.toNat

theorem cmp_prerelease_token_lin : LinCmp cmp_prerelease_token := by
  have hs := (lexCmp_lin charCmp_lin).comap fun s : List Char => s.map toAsciiLower
  constructor
  · intro a b
    rcases ha : parseU64 a with _ | na <;> rcases hb : parseU64 b with _ | nb <;>
      simp only [cmp_prerelease_token, ha, hb]
    · exact hs.symm a b
    · rfl
    · rfl
    · exact natCmp_lin.symm na nb
  · intro a b c h1 h2
    rcases ha : parseU64 a with _ | na <;> rcases hb : parseU64 b with _ | nb <;>
        rcases hc : parseU64 c with _ | nc <;>
        simp only [cmp_prerelease_token, ha, hb, hc, ne_eq] at h1 h2 ⊢ <;>
        first
          | exact hs.le_trans a b c h1 h2
          | exact natCmp_lin.le_trans na nb nc h1 h2
          | simp_all

theorem cmpPrerelease_lin : LinCmp cmpPrerelease := by
  have ht := (lexCmp_lin cmp_prerelease_token_lin).comap (splitOnChar '.')
  constructor
  · intro a b
    rcases a with _ | a <;> rcases b with _ | b <;> simp [cmpPrerelease, Ordering.swap]
    exact ht.symm a b
  · intro a b c
    rcases a with _ | a <;> rcases b with _ | b <;> rcases c with _ | c <;>
      simp [cmpPrerelease]
    exact ht.le_trans a b c

theorem NuGetVersion.cmp_lin : LinCmp NuGetVersion.cmp :=
  ((((natCmp_lin.comap NuGetVersion.major).thenComp
        (natCmp_lin.comap NuGetVersion.minor)).thenComp
      (natCmp_lin.comap NuGetVersion.patch)).thenComp
    (natCmp_lin.comap NuGetVersion.revision)).thenComp
  (cmpPrerelease_lin.comap NuGetVersion.prerelease)

/-! ### C7, C5: platform resolution -/

/-- C7: platform-to-asset-name resolution yields the Linux amd64 tarball for
(Linux, x86_64) and falls back to the x64 Windows zip for (Windows, aarch64)
without failing. -/
theorem C7_asset_name_scenarios :
    get_platform_asset_name .linux .x8664 = .ok "netcoredbg-linux-amd64.tar.gz" ∧
    get_platform_asset_name .windows .aarch64 = .ok "netcoredbg-win64.zip" :=
  ⟨rfl, rfl⟩

/-- C5 counterexample: the package-feed RID resolver does **not** fail for
32-bit x86 on any operating system — it returns the fallback identifier
`"any"`, contradicting the claim that both mappings fail fast for x86. -/
theorem C5_rid_x86_cex :
    roslyn_rid .linux .x86 = "any" ∧ roslyn_rid .mac .x86 = "any" ∧
      roslyn_rid .windows .x86 = "any" :=
  ⟨rfl, rfl, rfl⟩

/-- C5 (amended): for every operating system, the release-registry asset-name
resolver fails for x86 with the descriptive unsupported-architecture error,
while the package-feed RID resolver instead maps x86 to the neutral
identifier `"any"`. -/
theorem C5_x86_resolution :
    (∀ os : Os, get_platform_asset_name os .x86 =
      .error "Unsupported architecture: x86 (32-bit). NetCoreDbg only supports 64-bit architectures (amd64/arm64).") ∧
    (∀ os : Os, roslyn_rid os .x86 = "any") := by
  constructor <;> intro os <;> cases os <;> rfl

/-! ### C4: structural server location -/

/-- C4 counterexample: with **two** subdirectories under `tools`, the locator
does not fail — it silently uses the first one, contradicting the claim that
more than one subdirectory is an error. -/
theorem C4_multiple_tfm_cex :
    find_server_path "linux-x64" "roslyn-5.0.0"
        (.ok [⟨"net9.0", true⟩, ⟨"net8.0", true⟩]) =
      .ok (.exe "roslyn-5.0.0/tools/net9.0/linux-x64/Microsoft.CodeAnalysis.LanguageServer") := by
  decide

/-- C4 (amended): reading the `tools` folder of the version directory, the
locator fails with a descriptive error naming the folder when the listing
contains **zero** subdirectories, and otherwise uses the **first**
subdirectory entry of the listing (even when several exist). -/
theorem C4_find_server_path :
    ∀ (rid version_dir : String) (entries : List DirEntry),
      ((entries.filter fun entry => entry.is_dir) = [] →
        find_server_path rid version_dir (.ok entries) =
          .error ("no TFM directory found inside '" ++ (version_dir ++ "/tools") ++ "'")) ∧
      (∀ d rest, (entries.filter fun entry => entry.is_dir) = d :: rest →
        find_server_path rid version_dir (.ok entries) =
          .ok (server_path_for_rid rid
            ((version_dir ++ "/tools") ++ "/" ++ d.name ++ "/" ++ rid))) := by
  intro rid version_dir entries
  constructor
  · intro hnil
    simp [find_server_path, hnil]
  · intro d rest hcons
    simp [find_server_path, hcons]

/-- C4 witness: the amended theorem applied to a zero-subdirectory listing
and to a listing whose first subdirectory is `net9.0`. -/
theorem C4_find_server_path_witness :
    find_server_path "linux-x64" "roslyn-5.0.0" (.ok [⟨"readme.txt", false⟩]) =
      .error ("no TFM directory found inside '" ++ ("roslyn-5.0.0" ++ "/tools") ++ "'") ∧
    find_server_path "osx-arm64" "roslyn-5.0.0"
        (.ok [⟨"net9.0", true⟩, ⟨"net8.0", true⟩]) =
      .ok (server_path_for_rid "osx-arm64"
        (("roslyn-5.0.0" ++ "/tools") ++ "/" ++ "net9.0" ++ "/" ++ "osx-arm64")) :=
  ⟨(C4_find_server_path "linux-x64" "roslyn-5.0.0" [⟨"readme.txt", false⟩]).1 (by decide),
   (C4_find_server_path "osx-arm64" "roslyn-5.0.0" [⟨"net9.0", true⟩, ⟨"net8.0", true⟩]).2
     ⟨"net9.0", true⟩ [⟨"net8.0", true⟩] (by decide)⟩

/-! ### C9: user-supplied path short-circuit -/

/-- C9: a caller-supplied explicit path is returned exactly as given: the
result does not depend on the environment or the filesystem (so no network or
filesystem operation can influence it), no validation is applied, and the
cache cell and filesystem are left unchanged. -/
theorem C9_user_path_short_circuit :
    ∀ (env : Env) (fs : FS) (cache : Option String) (path : String),
      get_binary_path env fs (some path) cache = ⟨.ok path, cache, fs⟩ :=
  fun _ _ _ _ => rfl

/-! ### C6: exact asset matching and diagnostic error message -/

/-- Every string of the list occurs inside its `", "`-join. -/
theorem infix_joinComma (names : List String) (n : String) (hn : n ∈ names) :
    n.data <:+: (joinComma names).data := by
  induction names with
  | nil => cases hn
  | cons s rest ih =>
    cases rest with
    | nil =>
      have hns : n = s := by simpa using hn
      subst hns
      exact ⟨[], [], by simp [joinComma]⟩
    | cons t ts =>
      rcases List.mem_cons.1 hn with hns | hmem
      · subst hns
        exact ⟨[], (", " ++ joinComma (t :: ts)).data, by
          simp [joinComma, String.data_append]⟩
      · obtain ⟨u, w, huw⟩ := ih hmem
        refine ⟨(s ++ ", ").data ++ u, w, ?_⟩
        rw [show joinComma (s :: t :: ts) = s ++ ", " ++ joinComma (t :: ts) from rfl]
        simp only [String.data_append, ← huw]
        simp [List.append_assoc]

/-- C6: release-registry asset selection matches the platform-resolved name
exactly; on success the chosen asset's name equals the resolved name, and on
no match the error message contains both the expected name and every
available asset name. -/
theorem C6_exact_asset_matching (release : GithubRelease) (os : Os) (arch : Arch)
    (asset_name : String) (hres : get_platform_asset_name os arch = .ok asset_name) :
    (∀ v, fetch_latest_release (.ok release) os arch = .ok v →
      ∃ asset ∈ release.assets, asset.name = asset_name ∧
        v = ⟨release.version, asset.download_url⟩) ∧
    ((∀ asset ∈ release.assets, asset.name ≠ asset_name) →
      ∃ msg, fetch_latest_release (.ok release) os arch = .error msg ∧
        asset_name.data <:+: msg.data ∧
        ∀ asset ∈ release.assets, asset.name.data <:+: msg.data) := by
  constructor
  · intro v hv
    rcases hfind : release.assets.find? (fun asset => asset.name = asset_name) with _ | asset
    · simp only [fetch_latest_release, hres, hfind] at hv
      exact Except.noConfusion hv
    · simp only [fetch_latest_release, hres, hfind] at hv
      refine ⟨asset, List.mem_of_find?_eq_some hfind, ?_, ?_⟩
      · have hp := List.find?_some hfind
        simpa using hp
      · injection hv with hv2
        exact hv2.symm
  · intro hnone
    have hfind : release.assets.find? (fun asset => asset.name = asset_name) = none :=
      List.find?_eq_none.2 fun a ha => by simpa using hnone a ha
    refine ⟨"No compatible asset found for platform. Looking for: '" ++ asset_name ++
        "'. Available assets: [" ++ joinComma (release.assets.map GithubAsset.name) ++ "]",
      by simp only [fetch_latest_release, hres, hfind], ?_, ?_⟩
    · refine ⟨"No compatible asset found for platform. Looking for: '".data,
        ("'. Available assets: [" ++ joinComma (release.assets.map GithubAsset.name) ++
          "]").data, ?_⟩
      simp [String.data_append, List.append_assoc]
    · intro asset ha
      obtain ⟨u, w, huw⟩ :=
        infix_joinComma (release.assets.map GithubAsset.name) asset.name
          (List.mem_map_of_mem GithubAsset.name ha)
      refine ⟨("No compatible asset found for platform. Looking for: '" ++ asset_name ++
          "'. Available assets: [").data ++ u, w ++ "]".data, ?_⟩
      simp only [String.data_append, ← huw]
      simp [List.append_assoc]

/-- C6 witness: on a release with assets `a.zip` and `b.zip`, the Linux
x86_64 lookup fails with a message containing the expected name and both
available names. -/
theorem C6_exact_asset_matching_witness :
    ∃ msg,
      fetch_latest_release
          (.ok ⟨"v3", [⟨"a.zip", "u1"⟩, ⟨"b.zip", "u2"⟩]⟩) Os.linux Arch.x8664 = .error msg ∧
        ("netcoredbg-linux-amd64.tar.gz" : String).data <:+: msg.data ∧
        ∀ asset ∈ (GithubRelease.mk "v3" [⟨"a.zip", "u1"⟩, ⟨"b.zip", "u2"⟩]).assets,
          asset.name.data <:+: msg.data :=
  (C6_exact_asset_matching ⟨"v3", [⟨"a.zip", "u1"⟩, ⟨"b.zip", "u2"⟩]⟩ .linux .x8664
    "netcoredbg-linux-amd64.tar.gz" rfl).2 (by decide)

/-! ### C8: failure propagation in the acquisition pipeline -/

/-- C8 counterexample: in a run where download and extraction succeed but
validation fails (the final path exists but is a directory), the acquisition
aborts with the validation error **and the cache cell is left populated**
with the path whose validation failed — contradicting the claim that no
partial state is promoted as cached. -/
theorem C8_cache_populated_on_validation_failure_cex :
    (get_binary_path badValidateEnv emptyFS none none).ret =
      .error "netcoredbg path is not a file: /cwd/netcoredbg_v1.0/netcoredbg" ∧
    (get_binary_path badValidateEnv emptyFS none none).cache =
      some "/cwd/netcoredbg_v1.0/netcoredbg" := by
  constructor <;> rfl

/-- C8 (amended): whenever a step of the resolve/download/extract/locate/
validate pipeline fails, the acquisition aborts with exactly that step's
error and returns no path; the cache cell is left unchanged in every failing
case **except** a validation failure, which occurs after the cell has already
been set to the freshly downloaded (unvalidated) path. -/
theorem C8_failure_aborts (env : Env) (fs : FS) (cache : Option String) :
    (∀ e, fetch_latest_release env.releaseResult env.os env.arch = .error e →
      gbp_resolve env fs cache = ⟨.error e, cache, fs⟩) ∧
    (∀ version e, fetch_latest_release env.releaseResult env.os env.arch = .ok version →
      fs.pathExists ("netcoredbg_v" ++ version.tag_name ++ "/" ++
        get_executable_name env.os) = false →
      (download_and_extract_binary env fs).1 = .error e →
      gbp_resolve env fs cache = ⟨.error e, cache, (download_and_extract_binary env fs).2⟩) ∧
    (∀ version p e, fetch_latest_release env.releaseResult env.os env.arch = .ok version →
      fs.pathExists ("netcoredbg_v" ++ version.tag_name ++ "/" ++
        get_executable_name env.os) = false →
      (download_and_extract_binary env fs).1 = .ok p →
      validate_binary (download_and_extract_binary env fs).2 p = .error e →
      gbp_resolve env fs cache =
        ⟨.error e, onceLockSet cache p, (download_and_extract_binary env fs).2⟩) := by
  refine ⟨?_, ?_, ?_⟩
  · intro e hf
    simp [gbp_resolve, hf]
  · intro version e hf hmiss hdl
    rcases hpair : download_and_extract_binary env fs with ⟨ret, fs2⟩
    rw [hpair] at hdl
    simp only at hdl
    subst hdl
    simp [gbp_resolve, hf, hmiss, hpair]
  · intro version p e hf hmiss hdl hval
    rcases hpair : download_and_extract_binary env fs with ⟨ret, fs2⟩
    rw [hpair] at hdl hval
    simp only at hdl hval
    subst hdl
    simp [gbp_resolve, hf, hmiss, hpair, hval]

/-- C8 witness: the amended theorem's validation-failure case applied to the
concrete bad-validation run. -/
theorem C8_failure_aborts_witness :
    (gbp_resolve badValidateEnv emptyFS none).ret =
      .error "netcoredbg path is not a file: /cwd/netcoredbg_v1.0/netcoredbg" ∧
    (gbp_resolve badValidateEnv emptyFS none).cache =
      some "/cwd/netcoredbg_v1.0/netcoredbg" := by
  have h := (C8_failure_aborts badValidateEnv emptyFS none).2.2
    ⟨"1.0", "https://dl/a.tar.gz"⟩ "/cwd/netcoredbg_v1.0/netcoredbg"
    "netcoredbg path is not a file: /cwd/netcoredbg_v1.0/netcoredbg"
    (by decide) (by decide) (by decide) (by decide)
  rw [h]
  exact ⟨rfl, rfl⟩

/-! ### C10: the cache cell is single-assignment -/

/-- Resolution never changes an already-populated cache cell. -/
theorem gbp_resolve_cache_stable (env : Env) (fs : FS) (c : String) :
    (gbp_resolve env fs (some c)).cache = some c := by
  rcases hf : fetch_latest_release env.releaseResult env.os env.arch with e | version
  · simp [gbp_resolve, hf]
  · simp only [gbp_resolve, hf]
    rcases hex : fs.pathExists ("netcoredbg_v" ++ version.tag_name ++ "/" ++
        get_executable_name env.os) with _ | _
    · simp only [hex, Bool.false_eq_true, if_false]
      rcases hpair : download_and_extract_binary env fs with ⟨ret, fs2⟩
      rcases ret with e2 | p
      · rfl
      · rcases hval : validate_binary fs2 p with e3 | u <;> simp [onceLockSet, hval]
    · simp only [hex, if_true]
      rcases hcd : env.currentDirResult with e2 | cd <;> simp [onceLockSet, hcd]

/-- C10: the in-memory cache cell is single-assignment: once it holds a
value, every later call leaves that value in place — even a call that finds
the cached file deleted, skips the stale entry, re-resolves the release, and
returns a fresh path from the on-disk install while the cell still holds the
old value. -/
theorem C10_cache_single_assignment :
    (∀ (env : Env) (fs : FS) (c : String) (up : Option String),
      (get_binary_path env fs up (some c)).cache = some c) ∧
    (∀ (env : Env) (fs : FS) (c : String) (version : AdapterVersion) (cd : String),
      fs.pathExists c = false →
      fetch_latest_release env.releaseResult env.os env.arch = .ok version →
      fs.pathExists ("netcoredbg_v" ++ version.tag_name ++ "/" ++
        get_executable_name env.os) = true →
      env.currentDirResult = .ok cd →
      get_binary_path env fs none (some c) =
        ⟨.ok (cd ++ "/" ++ ("netcoredbg_v" ++ version.tag_name ++ "/" ++
            get_executable_name env.os)),
          some c, fs⟩) := by
  constructor
  · intro env fs c up
    rcases up with _ | u
    · simp only [get_binary_path]
      rcases hex : fs.pathExists c with _ | _
      · simp only [hex, Bool.false_eq_true, if_false]
        exact gbp_resolve_cache_stable env fs c
      · rfl
    · rfl
  · intro env fs c version cd hstale hf hdisk hcd
    simp [get_binary_path, gbp_resolve, hstale, hf, hdisk, hcd, onceLockSet]

/-- C10 witness: with the cell holding the stale path `/old/netcoredbg`
(whose file no longer exists) and a valid version-1.0 install on disk, the
call returns the fresh on-disk path while the cell keeps the old value. -/
theorem C10_cache_single_assignment_witness :
    get_binary_path badValidateEnv diskInstallFS none (some "/old/netcoredbg") =
      ⟨.ok ("/cwd" ++ "/" ++ ("netcoredbg_v" ++ "1.0" ++ "/" ++
          get_executable_name badValidateEnv.os)),
        some "/old/netcoredbg", diskInstallFS⟩ :=
  (C10_cache_single_assignment).2 badValidateEnv diskInstallFS "/old/netcoredbg"
    ⟨"1.0", "https://dl/a.tar.gz"⟩ "/cwd" (by decide) (by decide) (by decide) (by decide)

/-! ### C1: the version order -/

/-- C1: the comparison proceeds major, minor, patch, revision numerically;
with equal numeric cores a version without a prerelease tag is greater;
prerelease tags compare as dot-separated token sequences (numeric tokens
numerically and below non-numeric ones, non-numeric tokens case-insensitively,
strict prefix sequences below longer ones); the concrete chain
`2.0.0 > 2.0.0-alpha.2 > 2.0.0-alpha.1 > 2.0.0-alpha` holds; and the
comparator is antisymmetric, reflexive-equal, and transitive. -/
theorem C1_version_total_order :
    (∀ a b : NuGetVersion, a.major < b.major → NuGetVersion.cmp a b = .lt) ∧
    (∀ a b : NuGetVersion, a.major = b.major → a.minor < b.minor →
      NuGetVersion.cmp a b = .lt) ∧
    (∀ a b : NuGetVersion, a.major = b.major → a.minor = b.minor → a.patch < b.patch →
      NuGetVersion.cmp a b = .lt) ∧
    (∀ a b : NuGetVersion, a.major = b.major → a.minor = b.minor → a.patch = b.patch →
      a.revision < b.revision → NuGetVersion.cmp a b = .lt) ∧
    (∀ a b : NuGetVersion, a.major = b.major → a.minor = b.minor → a.patch = b.patch →
      a.revision = b.revision →
      NuGetVersion.cmp a b = cmpPrerelease a.prerelease b.prerelease) ∧
    (∀ p, cmpPrerelease none (some p) = .gt) ∧
    (∀ s t na, parseU64 s = some na → parseU64 t = none →
      cmp_prerelease_token s t = .lt) ∧
    (∀ s t na nb, parseU64 s = some na → parseU64 t = some nb →
      cmp_prerelease_token s t = natCmp na nb) ∧
    (∀ s t, parseU64 s = none → parseU64 t = none →
      cmp_prerelease_token s t =
        lexCmp charCmp (s.map toAsciiLower) (t.map toAsciiLower)) ∧
    (cmp_prerelease_token "Beta".data "beta".data = .eq) ∧
    (∀ l m : List (List Char), m ≠ [] → lexCmp cmp_prerelease_token l (l ++ m) = .lt) ∧
    (NuGetVersion.parse "2.0.0".data = some v200 ∧
      NuGetVersion.parse "2.0.0-alpha.2".data = some v200a2 ∧
      NuGetVersion.parse "2.0.0-alpha.1".data = some v200a1 ∧
      NuGetVersion.parse "2.0.0-alpha".data = some v200a ∧
      NuGetVersion.cmp v200 v200a2 = .gt ∧ NuGetVersion.cmp v200a2 v200a1 = .gt ∧
      NuGetVersion.cmp v200a1 v200a = .gt) ∧
    (∀ a b, NuGetVersion.cmp a b = (NuGetVersion.cmp b a).swap) ∧
    (∀ a, NuGetVersion.cmp a a = .eq) ∧
    (∀ a b c, NuGetVersion.cmp a b = .lt → NuGetVersion.cmp b c = .lt →
      NuGetVersion.cmp a c = .lt) := by
  refine ⟨?_, ?_, ?_, ?_, ?_, fun p => rfl, ?_, ?_, ?_, by decide, ?_, by decide,
    ?_, NuGetVersion.cmp_lin.refl, fun a b c => NuGetVersion.cmp_lin.lt_trans⟩
  · intro a b h
    simp [NuGetVersion.cmp, natCmp_eq_lt.2 h, Ordering.then]
  · intro a b h1 h2
    simp [NuGetVersion.cmp, natCmp_eq_eq.2 h1, natCmp_eq_lt.2 h2, Ordering.then]
  · intro a b h1 h2 h3
    simp [NuGetVersion.cmp, natCmp_eq_eq.2 h1, natCmp_eq_eq.2 h2, natCmp_eq_lt.2 h3,
      Ordering.then]
  · intro a b h1 h2 h3 h4
    simp [NuGetVersion.cmp, natCmp_eq_eq.2 h1, natCmp_eq_eq.2 h2, natCmp_eq_eq.2 h3,
      natCmp_eq_lt.2 h4, Ordering.then]
  · intro a b h1 h2 h3 h4
    simp [NuGetVersion.cmp, natCmp_eq_eq.2 h1, natCmp_eq_eq.2 h2, natCmp_eq_eq.2 h3,
      natCmp_eq_eq.2 h4, Ordering.then]
  · intro s t na h1 h2
    simp [cmp_prerelease_token, h1, h2]
  · intro s t na nb h1 h2
    simp [cmp_prerelease_token, h1, h2]
  · intro s t h1 h2
    simp [cmp_prerelease_token, h1, h2]
  · intro l m hm
    induction l with
    | nil =>
      rcases m with _ | ⟨x, xs⟩
      · exact absurd rfl hm
      · rfl
    | cons x xs ih =>
      show (cmp_prerelease_token x x).then (lexCmp cmp_prerelease_token xs (xs ++ m)) = .lt
      rw [cmp_prerelease_token_lin.refl x, ih]
      rfl
  · intro a b
    rw [← NuGetVersion.cmp_lin.symm a b, Ordering.swap_swap]

/-- C1 witness: the ordering rules instantiated at concrete versions and
tokens. -/
theorem C1_version_total_order_witness :
    NuGetVersion.cmp v12 v200 = .lt ∧
    NuGetVersion.cmp ⟨1, 0, 0, 0, none, []⟩ ⟨1, 5, 0, 0, none, []⟩ = .lt ∧
    NuGetVersion.cmp ⟨1, 5, 0, 0, none, []⟩ ⟨1, 5, 2, 0, none, []⟩ = .lt ∧
    NuGetVersion.cmp ⟨1, 5, 2, 0, none, []⟩ ⟨1, 5, 2, 9, none, []⟩ = .lt ∧
    NuGetVersion.cmp v200 v200a = cmpPrerelease v200.prerelease v200a.prerelease ∧
    cmp_prerelease_token "1".data "beta".data = .lt ∧
    cmp_prerelease_token "10".data "2".data = natCmp 10 2 ∧
    cmp_prerelease_token "beta".data "rc".data =
      lexCmp charCmp ("beta".data.map toAsciiLower) ("rc".data.map toAsciiLower) ∧
    lexCmp cmp_prerelease_token ["alpha".data] (["alpha".data] ++ ["1".data]) = .lt ∧
    NuGetVersion.cmp v200a v200a2 = .lt := by
  obtain ⟨h1, h2, h3, h4, h5, h6, h7, h8, h9, h10, h11, h12, h13, h14, h15⟩ :=
    C1_version_total_order
  exact ⟨h1 v12 v200 (by decide), h2 _ _ rfl (by decide), h3 _ _ rfl rfl (by decide),
    h4 _ _ rfl rfl rfl (by decide), h5 v200 v200a rfl rfl rfl rfl,
    h7 "1".data "beta".data 1 (by decide) (by decide),
    h8 "10".data "2".data 10 2 (by decide) (by decide),
    h9 "beta".data "rc".data (by decide) (by decide),
    h11 ["alpha".data] ["1".data] (by decide),
    h15 v200a v200a1 v200a2 (by decide) (by decide)⟩

/-! ### C2: version parsing -/

/-- `split_once` finds nothing when the separator does not occur. -/
theorem splitOnceChar_eq_none {sep : Char} : ∀ s : List Char, sep ∉ s →
    splitOnceChar sep s = none := by
  intro s
  induction s with
  | nil => intro _; rfl
  | cons c cs ih =>
    intro h
    simp only [List.mem_cons, not_or] at h
    have hcs : ¬c = sep := fun hc => h.1 hc.symm
    simp [splitOnceChar, hcs, ih h.2]

/-- `split_once` splits at the first separator occurrence. -/
theorem splitOnceChar_append {sep : Char} (rest : List Char) :
    ∀ core : List Char, sep ∉ core →
      splitOnceChar sep (core ++ sep :: rest) = some (core, rest) := by
  intro core
  induction core with
  | nil => intro _; simp [splitOnceChar]
  | cons c cs ih =>
    intro h
    simp only [List.mem_cons, not_or] at h
    have hcs : ¬c = sep := fun hc => h.1 hc.symm
    simp [splitOnceChar, hcs, ih h.2]

/-- Collecting the parsed segments preserves the segment count. -/
theorem parseSegments_length : ∀ {l : List (List Char)} {ns : List Nat},
    parseSegments l = some ns → ns.length = l.length := by
  intro l
  induction l with
  | nil =>
    intro ns h
    simp only [parseSegments, Option.some.injEq] at h
    simp [← h]
  | cons s rest ih =>
    intro ns h
    simp only [parseSegments] at h
    rcases hp : parseU64 s with _ | n <;> rw [hp] at h
    · exact Option.noConfusion h
    · rcases hps : parseSegments rest with _ | ms <;> rw [hps] at h
      · exact Option.noConfusion h
      · simp only [Option.some.injEq] at h
        subst h
        simp [ih hps]

/-- One unparsable segment makes the whole collection fail. -/
theorem parseSegments_eq_none {seg : List Char} (h2 : parseU64 seg = none) :
    ∀ l : List (List Char), seg ∈ l → parseSegments l = none := by
  intro l
  induction l with
  | nil => intro h; cases h
  | cons s rest ih =>
    intro h1
    rcases List.mem_cons.1 h1 with h | hmem
    · subst h
      simp [parseSegments, h2]
    · rcases hp : parseU64 s with _ | n <;> simp [parseSegments, hp, ih hmem]

/-- A parsed version's `raw` field is the original input. -/
theorem NuGetVersion.parse_raw {s : List Char} {v : NuGetVersion}
    (h : NuGetVersion.parse s = some v) : v.raw = s := by
  simp only [NuGetVersion.parse] at h
  split at h <;>
    first
      | exact Option.noConfusion h
      | (injection h with h2; subst h2; rfl)

/-- C2: parsing splits the input at the first dash into a numeric core and an
optional prerelease tag, splits the core on dots into 1–4 integer segments
with missing trailing segments defaulting to 0, fails on an unparsable
segment or more than 4 segments, and parses `"1.2"` ordering-equal to
`"1.2.0.0"`. -/
theorem C2_parse_shape :
    (∀ core rest : List Char, '-' ∉ core →
      NuGetVersion.parse (core ++ '-' :: rest) =
        (NuGetVersion.parse core).map
          fun v => { v with prerelease := some rest, raw := core ++ '-' :: rest }) ∧
    (∀ (s : List Char) (v : NuGetVersion), '-' ∉ s → NuGetVersion.parse s = some v →
      v.prerelease = none) ∧
    (∀ s : List Char, '-' ∉ s → 4 < (splitOnChar '.' s).length →
      NuGetVersion.parse s = none) ∧
    (∀ (s seg : List Char), '-' ∉ s → seg ∈ splitOnChar '.' s → parseU64 seg = none →
      NuGetVersion.parse s = none) ∧
    (∀ (s m : List Char) (a : Nat), '-' ∉ s → splitOnChar '.' s = [m] →
      parseU64 m = some a →
      NuGetVersion.parse s = some ⟨a, 0, 0, 0, none, s⟩) ∧
    (∀ (s m n : List Char) (a b : Nat), '-' ∉ s → splitOnChar '.' s = [m, n] →
      parseU64 m = some a → parseU64 n = some b →
      NuGetVersion.parse s = some ⟨a, b, 0, 0, none, s⟩) ∧
    (∀ (s m n p : List Char) (a b c : Nat), '-' ∉ s → splitOnChar '.' s = [m, n, p] →
      parseU64 m = some a → parseU64 n = some b → parseU64 p = some c →
      NuGetVersion.parse s = some ⟨a, b, c, 0, none, s⟩) ∧
    (∀ (s m n p q : List Char) (a b c d : Nat), '-' ∉ s →
      splitOnChar '.' s = [m, n, p, q] →
      parseU64 m = some a → parseU64 n = some b → parseU64 p = some c →
      parseU64 q = some d →
      NuGetVersion.parse s = some ⟨a, b, c, d, none, s⟩) ∧
    (NuGetVersion.parse "1.2".data = some v12 ∧
      NuGetVersion.parse "1.2.0.0".data = some v1200 ∧
      NuGetVersion.cmp v12 v1200 = .eq) := by
  refine ⟨?_, ?_, ?_, ?_, ?_, ?_, ?_, ?_, by decide, by decide, by decide⟩
  · intro core rest hcore
    simp only [NuGetVersion.parse, splitOnceChar_append rest core hcore,
      splitOnceChar_eq_none core hcore]
    rcases parseSegments (splitOnChar '.' core) with _ | segs
    · rfl
    · rcases segs with _ | ⟨a, _ | ⟨b, _ | ⟨c, _ | ⟨d, _ | ⟨e, f⟩⟩⟩⟩⟩ <;> rfl
  · intro s v hs h
    simp only [NuGetVersion.parse, splitOnceChar_eq_none s hs] at h
    split at h <;>
      first
        | exact Option.noConfusion h
        | (injection h with h2; subst h2; rfl)
  · intro s hs hlen
    simp only [NuGetVersion.parse, splitOnceChar_eq_none s hs]
    rcases hps : parseSegments (splitOnChar '.' s) with _ | segs
    · rfl
    · have hlen2 := parseSegments_length hps
      rcases segs with _ | ⟨a, _ | ⟨b, _ | ⟨c, _ | ⟨d, _ | ⟨e, f⟩⟩⟩⟩⟩ <;>
        first
          | rfl
          | (rw [← hlen2] at hlen; simp at hlen)
  · intro s seg hs hmem hnone
    simp only [NuGetVersion.parse, splitOnceChar_eq_none s hs,
      parseSegments_eq_none hnone (splitOnChar '.' s) hmem]
  · intro s m a hs hsplit hm
    simp only [NuGetVersion.parse, splitOnceChar_eq_none s hs, hsplit, parseSegments, hm]
  · intro s m n a b hs hsplit hm hn
    simp only [NuGetVersion.parse, splitOnceChar_eq_none s hs, hsplit, parseSegments,
      hm, hn]
  · intro s m n p a b c hs hsplit hm hn hp
    simp only [NuGetVersion.parse, splitOnceChar_eq_none s hs, hsplit, parseSegments,
      hm, hn, hp]
  · intro s m n p q a b c d hs hsplit hm hn hp hq
    simp only [NuGetVersion.parse, splitOnceChar_eq_none s hs, hsplit, parseSegments,
      hm, hn, hp, hq]

/-- C2 witness: the split and the two-segment defaulting rules at concrete
inputs. -/
theorem C2_parse_shape_witness :
    NuGetVersion.parse ("1".data ++ '-' :: "rc".data) =
      (NuGetVersion.parse "1".data).map
        (fun v =>
          { v with prerelease := some "rc".data, raw := "1".data ++ '-' :: "rc".data }) ∧
    NuGetVersion.parse "3.4".data = some ⟨3, 4, 0, 0, none, "3.4".data⟩ := by
  obtain ⟨h1, h2, h3, h4, h5a, h5b, h5c, h5d, h6⟩ := C2_parse_shape
  exact ⟨h1 "1".data "rc".data (by decide),
    h5b "3.4".data "3".data "4".data 3 4 (by decide) (by decide) (by decide) (by decide)⟩

/-! ### C3: maximum-version selection -/

/-- The fold underlying `Iterator::max` returns an element of the list. -/
theorem iterMax_mem : ∀ (vs : List NuGetVersion) (v : NuGetVersion),
    iterMax v vs ∈ v :: vs := by
  intro vs
  induction vs with
  | nil => intro v; simp [iterMax]
  | cons x xs ih =>
    intro v
    show iterMax (if NuGetVersion.cmp x v = .lt then v else x) xs ∈ v :: x :: xs
    split
    · have h := ih v
      simp only [List.mem_cons] at h ⊢
      tauto
    · have h := ih x
      simp only [List.mem_cons] at h ⊢
      tauto

/-- The fold underlying `Iterator::max` is an upper bound of the list. -/
theorem iterMax_not_lt : ∀ (vs : List NuGetVersion) (v : NuGetVersion),
    ∀ w ∈ v :: vs, NuGetVersion.cmp w (iterMax v vs) ≠ .gt := by
  intro vs
  induction vs with
  | nil =>
    intro v w hw
    simp only [List.mem_singleton] at hw
    subst hw
    simp [iterMax, NuGetVersion.cmp_lin.refl]
  | cons x xs ih =>
    intro v w hw
    show NuGetVersion.cmp w
      (iterMax (if NuGetVersion.cmp x v = .lt then v else x) xs) ≠ .gt
    have hacc : ∀ u, u = v ∨ u = x →
        NuGetVersion.cmp u (if NuGetVersion.cmp x v = .lt then v else x) ≠ .gt := by
      intro u hu
      split
      case isTrue hc =>
        rcases hu with rfl | rfl
        · simp [NuGetVersion.cmp_lin.refl]
        · simp [hc]
      case isFalse hc =>
        rcases hu with rfl | rfl
        · intro hgt
          exact hc ((NuGetVersion.cmp_lin.gt_iff_lt u x).1 hgt)
        · simp [NuGetVersion.cmp_lin.refl]
    set acc := if NuGetVersion.cmp x v = .lt then v else x with hacc_def
    have hmax := ih acc
    rcases List.mem_cons.1 hw with rfl | hw2
    · exact NuGetVersion.cmp_lin.le_trans w acc (iterMax acc xs)
        (hacc w (Or.inl rfl)) (hmax acc (List.mem_cons_self acc xs))
    · rcases List.mem_cons.1 hw2 with rfl | hw3
      · exact NuGetVersion.cmp_lin.le_trans w acc (iterMax acc xs)
          (hacc w (Or.inr rfl)) (hmax acc (List.mem_cons_self acc xs))
      · exact hmax w (List.mem_cons_of_mem acc hw3)

/-- C3: selection over a version-string list fails exactly when no entry
parses; a successful selection returns the raw string of an entry that parses
to a maximum of all parsed entries; and the spec's concrete example selects
`"2.0.0-alpha.2"`. -/
theorem C3_select_max :
    (∀ (package_id : String) (versions : List (List Char)),
      ((∀ s ∈ versions, NuGetVersion.parse s = none) ↔
        ∃ e, get_latest_version_core package_id versions = .error e)) ∧
    (∀ (package_id : String) (versions : List (List Char)) (r : List Char),
      get_latest_version_core package_id versions = .ok r →
      ∃ s ∈ versions, ∃ v : NuGetVersion, NuGetVersion.parse s = some v ∧ v.raw = r ∧
        r = s ∧
        ∀ w ∈ versions.filterMap NuGetVersion.parse, NuGetVersion.cmp w v ≠ .gt) ∧
    get_latest_version_core "roslyn"
        (["1.0.0", "1.0.0-beta", "1.0.1", "2.0.0-alpha.1", "2.0.0-alpha.2"].map
          String.data) =
      .ok "2.0.0-alpha.2".data := by
  refine ⟨?_, ?_, by decide⟩
  · intro pid versions
    rcases hfm : versions.filterMap NuGetVersion.parse with _ | ⟨v, vs⟩
    · constructor
      · intro _
        exact ⟨"no parseable versions found for NuGet package '" ++ pid ++ "'",
          by simp [get_latest_version_core, hfm]⟩
      · intro _
        exact List.filterMap_eq_nil_iff.1 hfm
    · constructor
      · intro hall
        have h0 : versions.filterMap NuGetVersion.parse = [] :=
          List.filterMap_eq_nil_iff.2 hall
        rw [hfm] at h0
        cases h0
      · rintro ⟨e, he⟩
        simp only [get_latest_version_core, hfm] at he
        exact Except.noConfusion he
  · intro pid versions r hr
    rcases hfm : versions.filterMap NuGetVersion.parse with _ | ⟨v, vs⟩
    · simp only [get_latest_version_core, hfm] at hr
      exact Except.noConfusion hr
    · simp only [get_latest_version_core, hfm] at hr
      injection hr with hr2
      have hmem : iterMax v vs ∈ versions.filterMap NuGetVersion.parse := by
        rw [hfm]
        exact iterMax_mem vs v
      obtain ⟨s, hs, hps⟩ := List.mem_filterMap.1 hmem
      refine ⟨s, hs, iterMax v vs, hps, hr2, ?_, ?_⟩
      · rw [← hr2]
        exact NuGetVersion.parse_raw hps
      · intro w hw
        exact iterMax_not_lt vs v w hw

/-- C3 witness: the maximum-property conjunct applied to the spec's concrete
example list. -/
theorem C3_select_max_witness :
    ∃ s ∈ (["1.0.0", "1.0.0-beta", "1.0.1", "2.0.0-alpha.1", "2.0.0-alpha.2"].map
        String.data),
      ∃ v : NuGetVersion, NuGetVersion.parse s = some v ∧
        v.raw = "2.0.0-alpha.2".data ∧ "2.0.0-alpha.2".data = s ∧
        ∀ w ∈ (["1.0.0", "1.0.0-beta", "1.0.1", "2.0.0-alpha.1",
            "2.0.0-alpha.2"].map String.data).filterMap NuGetVersion.parse,
          NuGetVersion.cmp w v ≠ .gt :=
  C3_select_max.2.1 "roslyn" _ "2.0.0-alpha.2".data (by decide)
